import Mathlib

/-
Shallow embedding of the 8-bit CPU simulator core (frontend/src/api/cpu.js)
of the eightbit-simulator repository.

Modelling conventions:
  - JavaScript numbers that can hold the special values `undefined` / `NaN`
    are modelled as `Option Nat`, with `none` standing for undefined/NaN.
    These values arise only from out-of-range reads of the `Uint8Array`
    memories (which yield `undefined` in JS) and from arithmetic on them
    (which yields `NaN`); both behave identically in every context the
    machine puts them through (comparisons are false, `& 0xFF` gives 0,
    a `Uint8Array` store coerces them to 0), so one `none` suffices.
  - The two 256-byte `Uint8Array` memories are modelled as `List Nat`
    (length 256 in every reachable state); out-of-range reads give `none`
    (JS: `undefined`) via `List.get?`, out-of-range writes are dropped
    (JS: a `Uint8Array` ignores out-of-bound numeric stores, and a store
    at index `undefined` creates a non-index property that the numeric
    reads the machine performs never observe).
  - JS objects used as string/number keyed dictionaries (`labels`,
    `pcToLineMap`) are modelled as association lists where a new binding
    is prepended and lookup takes the first match, which reproduces the
    overwrite semantics of JS property assignment.
  - Presentation-only fields of the source (`activeComponents`, the `alu`
    record, `currentRamAddress`, `registerB` aside) carry no architectural
    state and are not consulted by any instruction; the claims never
    mention them, so the embedding omits them (registerB is kept because
    claim statements name it).
  - The scheduler (`run`/`stop`/`setClockSpeed`, real-time `setInterval`)
    is wall-clock based and outside the shallow embedding; `step`,
    `reset`, `loadProgram` and `assembleCode` are embedded in full.
-/

/-- The eleven instructions of cpu.js, in the declaration order of the
`instructionSet` object literal (lines 39-257). -/
inductive Instr where
  | NOP | LDA | ADD | SUB | STA | LDI | JMP | JC | JZ | OUT | HLT
deriving DecidableEq, Fintype

/-- Opcode of each instruction (`instructionSet[name][0]`). -/
def opcode : Instr → Nat
  | .NOP => 0
  | .LDA => 1
  | .ADD => 2
  | .SUB => 3
  | .STA => 4
  | .LDI => 5
  | .JMP => 6
  | .JC => 7
  | .JZ => 8
  | .OUT => 9
  | .HLT => 15

/-- Operand count of each instruction (`instructionSet[name][1]`). -/
def operandCount : Instr → Nat
  | .NOP => 0
  | .OUT => 0
  | .HLT => 0
  | _ => 1

/-- Machine state: the architectural fields of the CPU class
(constructor, lines 5-36).  See the modelling conventions above for why
several byte-valued fields are `Option Nat`. -/
structure CPUState where
  registerA : Option Nat
  registerB : Nat
  programCounter : Option Nat
  instructionRegister : Option Nat
  flagZero : Bool
  flagCarry : Bool
  outputRegister : Option Nat
  rom : List Nat
  ram : List Nat
  pcToLineMap : List (Nat × Nat)
  currentSourceLine : Nat

/-- A 256-byte all-zero memory, the initial contents of `rom` and `ram`
(`new Uint8Array(256)`). -/
def zeroMem : List Nat := List.replicate 256 0

/-- The freshly constructed CPU (constructor, lines 5-36): all registers
and flags zero, both memories zeroed, empty line map. -/
def initCPU : CPUState :=
  { registerA := some 0
    registerB := 0
    programCounter := some 0
    instructionRegister := some 0
    flagZero := false
    flagCarry := false
    outputRegister := some 0
    rom := zeroMem
    ram := zeroMem
    pcToLineMap := []
    currentSourceLine := 0 }

/-- Read `ram[addr]` where `addr` may be undefined: an in-range index
yields the byte, anything else yields `none` (JS: `undefined`). -/
def ramRead (ram : List Nat) (addr : Option Nat) : Option Nat :=
  addr.bind fun a => ram.get? a

/-- Value actually stored by a `Uint8Array` assignment: `undefined`
coerces to 0, numbers are reduced modulo 256. -/
def storeByte (v : Option Nat) : Nat := (v.getD 0) % 256

/-- Result of the JS expression `(inputA + inputB) & 0xFF` (line 97):
NaN (from an undefined input) masks to 0. -/
def jsAddResult : Option Nat → Option Nat → Nat
  | some a, some b => (a + b) % 256
  | _, _ => 0

/-- Result of the JS comparison `(inputA + inputB) > 255` (line 103):
false when an input is undefined (NaN compares false). -/
def jsAddCarry : Option Nat → Option Nat → Bool
  | some a, some b => decide (a + b > 255)
  | _, _ => false

/-- Result of the JS expression `(inputA - inputB) & 0xFF` (line 129),
the two's-complement 8-bit wrap of the difference. -/
def jsSubResult : Option Nat → Option Nat → Nat
  | some a, some b => (((a : Int) - (b : Int)) % 256).toNat
  | _, _ => 0

/-- Result of the JS comparison `(inputA - inputB) < 0` (line 136). -/
def jsSubCarry : Option Nat → Option Nat → Bool
  | some a, some b => decide ((a : Int) - (b : Int) < 0)
  | _, _ => false

/-- The execution function of each instruction (the closures stored in
`instructionSet`, lines 42-256), acting on the architectural state.
`updateFlags(v)` in the source sets only the zero flag, to `v === 0`. -/
def execute (i : Instr) (operand : Option Nat) (s : CPUState) : CPUState :=
  match i with
  | .NOP => s
  | .LDA =>
      let v := ramRead s.ram operand
      { s with registerA := v, flagZero := v == some 0 }
  | .ADD =>
      let inB := ramRead s.ram operand
      let r := jsAddResult s.registerA inB
      { s with registerA := some r
               flagCarry := jsAddCarry s.registerA inB
               flagZero := decide (r = 0) }
  | .SUB =>
      let inB := ramRead s.ram operand
      let r := jsSubResult s.registerA inB
      { s with registerA := some r
               flagCarry := jsSubCarry s.registerA inB
               flagZero := decide (r = 0) }
  | .STA =>
      match operand with
      | some addr => { s with ram := s.ram.set addr (storeByte s.registerA) }
      | none => s
  | .LDI => { s with registerA := operand, flagZero := operand == some 0 }
  | .JMP => { s with programCounter := operand }
  | .JC => if s.flagCarry then { s with programCounter := operand } else s
  | .JZ => if s.flagZero then { s with programCounter := operand } else s
  | .OUT => { s with outputRegister := s.registerA }
  | .HLT => s

/-- Decode an opcode byte to an instruction: the source scans
`Object.entries(this.instructionSet)` in declaration order for the first
entry whose opcode equals the fetched byte (lines 481-493); an undefined
fetch (`none`) matches nothing. -/
def decode (v : Option Nat) : Option Instr :=
  match v with
  | none => none
  | some b =>
      if b = 0 then some .NOP
      else if b = 1 then some .LDA
      else if b = 2 then some .ADD
      else if b = 3 then some .SUB
      else if b = 4 then some .STA
      else if b = 5 then some .LDI
      else if b = 6 then some .JMP
      else if b = 7 then some .JC
      else if b = 8 then some .JZ
      else if b = 9 then some .OUT
      else if b = 15 then some .HLT
      else none

/-- Outcome of one `step()` call: the source returns the string HALT
(after HLT), `null` (any other executed instruction), or `undefined`
(unmatched opcode, the silent no-op path); the only consumer compares
the result against the HALT string. -/
inductive StepResult where
  | halt | cont | nop
deriving DecidableEq

/-- One fetch-decode-execute cycle (`step()`, lines 460-526): resolve the
current source line from the map (`|| 0` default), fetch
`rom[programCounter]` into the instruction register, decode; on no match
advance the program counter by 1 and return (no-op); otherwise read the
operand byte (advancing the counter past it) when the instruction takes
one, advance the counter once more, and run the execution function. -/
def step (s : CPUState) : CPUState × StepResult :=
  let srcLine :=
    match s.programCounter with
    | some pc => (List.lookup pc s.pcToLineMap).getD 0
    | none => 0
  let ir := s.programCounter.bind fun pc => s.rom.get? pc
  let s1 := { s with currentSourceLine := srcLine, instructionRegister := ir }
  match decode ir with
  | none => ({ s1 with programCounter := s1.programCounter.map (· + 1) }, .nop)
  | some i =>
      let pcOp := if operandCount i > 0 then s1.programCounter.map (· + 1)
                  else s1.programCounter
      let operand := if operandCount i > 0 then pcOp.bind (fun pc => s1.rom.get? pc)
                     else none
      let s2 := { s1 with programCounter := pcOp.map (· + 1) }
      (execute i operand s2, if i = .HLT then .halt else .cont)

/-- Iterate `step` until it reports halt, with fuel; `some` of the final
state when the halt signal arrives within the fuel bound. -/
def runUntilHalt : Nat → CPUState → Option CPUState
  | 0, _ => none
  | fuel + 1, s =>
      match step s with
      | (s1, .halt) => some s1
      | (s1, _) => runUntilHalt fuel s1

/-
The assembler (`assembleCode`, lines 348-457) works on JS strings.  The
embedding represents a string as its list of characters and re-implements
the handful of JS string builtins the assembler uses as structural
recursions (core String functions are avoided because the claims are
settled by evaluation): `trim`, `split('\n')` / `split(':')`,
`split(/\s+/)`, `toUpperCase`, `startsWith`, `includes`, `isNaN` and
`parseInt`.  Each helper's doc comment names the JS builtin it models.
-/

/-- JS String.prototype.trim: drop leading and trailing whitespace. -/
def jsTrim (s : List Char) : List Char :=
  ((s.dropWhile Char.isWhitespace).reverse.dropWhile Char.isWhitespace).reverse

/-- Split a character list at every character satisfying `p`, keeping
empty segments (the behavior of JS split on a single-character
separator, generalised to a predicate). -/
def splitWhen (p : Char → Bool) : List Char → List (List Char)
  | [] => [[]]
  | c :: cs =>
      let r := splitWhen p cs
      if p c then [] :: r
      else
        match r with
        | t :: ts => (c :: t) :: ts
        | [] => [[c]]

/-- JS split(regexp of one-or-more whitespace): on the trimmed, nonempty
inputs the assembler applies it to, this equals splitting at whitespace
and discarding empty segments. -/
def tokens (s : List Char) : List (List Char) :=
  (splitWhen Char.isWhitespace s).filter (fun t => t ≠ [])

/-- JS String.prototype.toUpperCase (ASCII range, which is all the
assembler compares). -/
def toUpperL (s : List Char) : List Char := s.map Char.toUpper

/-- Numeric value of a string of decimal digits. -/
def digitsVal (s : List Char) : Nat :=
  s.foldl (fun acc c => acc * 10 + (c.toNat - 48)) 0

/-- True iff the token is a nonempty string of decimal digits. -/
def isDigits (s : List Char) : Bool := s ≠ [] && s.all Char.isDigit

/-- Models the JS test `!isNaN(tok)` (i.e. `Number(tok)` is a number) for
the whitespace-free tokens the assembler sees: true exactly on unsigned
decimal literals.  Signed, hex, float and exponent literal forms are
outside the assembler's operand grammar (unsigned decimal or label
identifier) and are not modelled. -/
def tokIsNumeric (s : List Char) : Bool := isDigits s

/-- Models JS parseInt(tok) in base 10: value of the longest leading
digit run, NaN (`none`) when there is none. -/
def jsParseInt (s : List Char) : Option Nat :=
  let pre := s.takeWhile Char.isDigit
  if pre = [] then none else some (digitsVal pre)

/-- Operand resolution of pass 2 (lines 442-450): a non-numeric token
that is a known label is replaced by the label's address, then the
result goes through `parseInt(operand) & 0xFF`.  A token that is neither
numeric nor a known label ends as `parseInt(tok)`, which is NaN for an
identifier, and `NaN & 0xFF` is 0 — the silent coercion. -/
def resolveOperand (labels : List (List Char × Nat)) (tok : List Char) : Nat :=
  let viaLabel : Option Nat :=
    if tokIsNumeric tok then none else List.lookup tok labels
  match viaLabel with
  | some addr => addr % 256
  | none =>
      match jsParseInt tok with
      | some n => n % 256
      | none => 0

/-- A line survives filtering (lines 360-363) iff its trimmed form is
nonempty and does not start with a semicolon (comment). -/
def isCodeLine (line : List Char) : Bool :=
  let t := jsTrim line
  !(t = [] || (match t with | c :: _ => c = ';' | [] => false))

/-- Mnemonic lookup in the instruction table: `(opcode, operandCount)`
for the eleven known (upper-case) mnemonics. -/
def instrLookup (name : List Char) : Option (Nat × Nat) :=
  if name = "NOP".toList then some (0, 0)
  else if name = "LDA".toList then some (1, 1)
  else if name = "ADD".toList then some (2, 1)
  else if name = "SUB".toList then some (3, 1)
  else if name = "STA".toList then some (4, 1)
  else if name = "LDI".toList then some (5, 1)
  else if name = "JMP".toList then some (6, 1)
  else if name = "JC".toList then some (7, 1)
  else if name = "JZ".toList then some (8, 1)
  else if name = "OUT".toList then some (9, 0)
  else if name = "HLT".toList then some (15, 0)
  else none

/-- The instruction part of a trimmed line: for a line containing a
colon, `split(':')[1].trim()` (lines 421-422); otherwise the line
itself. -/
def instrPart (t : List Char) : List Char :=
  if t.contains ':' then jsTrim ((t.splitOn ':').getD 1 []) else t

/-- Accumulator of pass 1 (lines 356-412): label table, running byte
address, and the address-to-source-line map under construction. -/
structure AsmPass1 where
  labels : List (List Char × Nat)
  currentAddress : Nat
  pcToLineMap : List (Nat × Nat)

/-- Pass 1 on one surviving line (body of the forEach, lines 378-412):
a line with a colon binds the label to the current address, maps the
address to the line's original index, and advances the address by the
size of the instruction after the colon when one is present and known;
a line without a colon maps the address and advances it when its
mnemonic is known.  Unknown mnemonics never advance the address. -/
def pass1Line (st : AsmPass1) (origIdx : Nat) (line : List Char) : AsmPass1 :=
  let t := jsTrim line
  if t.contains ':' then
    let parts := t.splitOn ':'
    let labelName := jsTrim (parts.headD [])
    let labels' := (labelName, st.currentAddress) :: st.labels
    let map' := (st.currentAddress, origIdx) :: st.pcToLineMap
    let remaining := jsTrim (parts.getD 1 [])
    if remaining ≠ [] then
      let instr := toUpperL ((tokens remaining).headD [])
      match instrLookup instr with
      | some pr =>
          { labels := labels', currentAddress := st.currentAddress + 1 + pr.2,
            pcToLineMap := map' }
      | none =>
          { labels := labels', currentAddress := st.currentAddress,
            pcToLineMap := map' }
    else
      { labels := labels', currentAddress := st.currentAddress, pcToLineMap := map' }
  else
    let map' := (st.currentAddress, origIdx) :: st.pcToLineMap
    let instr := toUpperL ((tokens t).headD [])
    match instrLookup instr with
    | some pr => { st with currentAddress := st.currentAddress + 1 + pr.2,
                           pcToLineMap := map' }
    | none => { st with pcToLineMap := map' }

/-- Pass 2 on one surviving line (body of the forEach, lines 415-454):
skip a label-only line; skip an unknown mnemonic (logged in the source);
otherwise emit the opcode, and emit a resolved operand byte exactly when
the instruction takes an operand AND the line carries an operand token.
The source also keeps advancing `currentAddress` here, but that value is
never read again, so it is not modelled. -/
def pass2Line (labels : List (List Char × Nat)) (acc : List Nat)
    (line : List Char) : List Nat :=
  let t := jsTrim line
  let il := instrPart t
  if t.contains ':' && il = [] then acc
  else
    let parts := tokens il
    let instr := toUpperL (parts.headD [])
    match instrLookup instr with
    | none => acc
    | some pr =>
        let acc1 := acc ++ [pr.1]
        match parts.get? 1 with
        | some tok => if pr.2 > 0 then acc1 ++ [resolveOperand labels tok] else acc1
        | none => acc1

/-- The two-pass assembler (`assembleCode`, lines 348-457) as a pure
function: machine code plus the freshly built address-to-source-line
map.  The source's `lineIndexMap` (filtered index to original index,
lines 367-375) is fused into `enum`-then-`filter`, which pairs each
surviving line directly with its original index. -/
def assembleCode (code : String) : List Nat × List (Nat × Nat) :=
  let lines := (jsTrim code.toList).splitOn '\n'
  let codeIdx := lines.enum.filter (fun p => isCodeLine p.2)
  let p1 := codeIdx.foldl (fun st p => pass1Line st p.1 p.2)
    { labels := [], currentAddress := 0, pcToLineMap := [] }
  let mc := codeIdx.foldl (fun acc p => pass2Line p1.labels acc p.2) []
  (mc, p1.pcToLineMap)

/-- The assembler as the method on the CPU object: it clears and then
replaces `this.pcToLineMap` (lines 352-353 and 388/402) and returns the
machine code. -/
def assembleInto (code : String) (s : CPUState) : CPUState × List Nat :=
  let r := assembleCode code
  ({ s with pcToLineMap := r.2 }, r.1)

/-- `reset()` (lines 283-317): zero every register, flag and both
memories; `pcToLineMap` is not among the fields it writes.  The
scheduler and visualization fields it also clears are not modelled. -/
def reset (s : CPUState) : CPUState :=
  { s with registerA := some 0, registerB := 0, programCounter := some 0,
           instructionRegister := some 0, flagZero := false, flagCarry := false,
           outputRegister := some 0, currentSourceLine := 0,
           rom := zeroMem, ram := zeroMem }

/-- The ROM image produced by the load loop (lines 342-344): the first
256 program bytes stored through the `Uint8Array` (mod 256), the rest of
the 256 cells zero. -/
def loadROM (program : List Nat) : List Nat :=
  (program.take 256).map (fun b => b % 256) ++
    List.replicate (256 - min program.length 256) 0

/-- `loadProgram(program)` (lines 320-345): save the line map, reset,
restore the line map, clear both memories again, copy the program into
ROM. -/
def loadProgram (program : List Nat) (s : CPUState) : CPUState :=
  let saved := s.pcToLineMap
  let s1 := reset s
  let s2 := { s1 with pcToLineMap := saved }
  { s2 with rom := loadROM program, ram := zeroMem }

/-- A byte that is no instruction's opcode decodes to nothing: the scan
over the instruction table finds no entry. -/
theorem decode_eq_none {b : Nat} (h : ∀ i : Instr, opcode i ≠ b) :
    decode (some b) = none := by
  have h0 : ¬ b = 0 := fun hb => h .NOP hb.symm
  have h1 : ¬ b = 1 := fun hb => h .LDA hb.symm
  have h2 : ¬ b = 2 := fun hb => h .ADD hb.symm
  have h3 : ¬ b = 3 := fun hb => h .SUB hb.symm
  have h4 : ¬ b = 4 := fun hb => h .STA hb.symm
  have h5 : ¬ b = 5 := fun hb => h .LDI hb.symm
  have h6 : ¬ b = 6 := fun hb => h .JMP hb.symm
  have h7 : ¬ b = 7 := fun hb => h .JC hb.symm
  have h8 : ¬ b = 8 := fun hb => h .JZ hb.symm
  have h9 : ¬ b = 9 := fun hb => h .OUT hb.symm
  have hF : ¬ b = 15 := fun hb => h .HLT hb.symm
  simp [decode, h0, h1, h2, h3, h4, h5, h6, h7, h8, h9, hF]

/-- Claim C3: for every pre-state with registerA = a and dataMemory[addr] = b
(a, b bytes), executing ADD addr leaves registerA = (a+b) mod 256, sets
the carry flag iff a+b > 255, and sets the zero flag iff the resulting
registerA equals 0. -/
theorem add_byte_semantics (s : CPUState) (addr a b : Nat)
    (ha : s.registerA = some a) (hb : s.ram.get? addr = some b)
    (ha255 : a ≤ 255) (hb255 : b ≤ 255) :
    (execute .ADD (some addr) s).registerA = some ((a + b) % 256) ∧
    (execute .ADD (some addr) s).flagCarry = decide (a + b > 255) ∧
    (execute .ADD (some addr) s).flagZero = decide ((a + b) % 256 = 0) := by
  have hb' : s.ram[addr]? = some b := by rw [← List.get?_eq_getElem?]; exact hb
  simp [execute, ramRead, ha, hb', jsAddResult, jsAddCarry]

theorem add_byte_semantics_w :
    (execute .ADD (some 5)
      { initCPU with registerA := some 200, ram := zeroMem.set 5 100 }).registerA =
      some ((200 + 100) % 256) ∧
    (execute .ADD (some 5)
      { initCPU with registerA := some 200, ram := zeroMem.set 5 100 }).flagCarry =
      decide (200 + 100 > 255) ∧
    (execute .ADD (some 5)
      { initCPU with registerA := some 200, ram := zeroMem.set 5 100 }).flagZero =
      decide ((200 + 100) % 256 = 0) :=
  add_byte_semantics _ 5 200 100 rfl (by decide) (by decide) (by decide)

/-- Claim C4: for every pre-state with registerA = a and dataMemory[addr] = b
(a, b bytes), executing SUB addr leaves registerA = (a-b) mod 256 in
two's-complement wrap, sets the carry flag iff a-b < 0, and sets the
zero flag iff the resulting registerA equals 0. -/
theorem sub_byte_semantics (s : CPUState) (addr a b : Nat)
    (ha : s.registerA = some a) (hb : s.ram.get? addr = some b)
    (ha255 : a ≤ 255) (hb255 : b ≤ 255) :
    (execute .SUB (some addr) s).registerA = some (((a : Int) - (b : Int)) % 256).toNat ∧
    (execute .SUB (some addr) s).flagCarry = decide ((a : Int) - (b : Int) < 0) ∧
    (execute .SUB (some addr) s).flagZero =
      decide ((((a : Int) - (b : Int)) % 256).toNat = 0) := by
  have hb' : s.ram[addr]? = some b := by rw [← List.get?_eq_getElem?]; exact hb
  simp [execute, ramRead, ha, hb', jsSubResult, jsSubCarry]

theorem sub_byte_semantics_w :
    (execute .SUB (some 3)
      { initCPU with registerA := some 5, ram := zeroMem.set 3 10 }).registerA =
      some (((5 : Int) - (10 : Int)) % 256).toNat ∧
    (execute .SUB (some 3)
      { initCPU with registerA := some 5, ram := zeroMem.set 3 10 }).flagCarry =
      decide ((5 : Int) - (10 : Int) < 0) ∧
    (execute .SUB (some 3)
      { initCPU with registerA := some 5, ram := zeroMem.set 3 10 }).flagZero =
      decide ((((5 : Int) - (10 : Int)) % 256).toNat = 0) :=
  sub_byte_semantics _ 3 5 10 rfl (by decide) (by decide) (by decide)

/-- Claim C5: when the fetched byte is no instruction's opcode, step() advances
the program counter by exactly 1 and reports the silent no-op outcome
(the undefined return, a normal-continue signal, never an error); the
registers, flags, output register and both memories are unchanged. -/
theorem unknown_opcode_is_nop (s : CPUState) (p b : Nat)
    (hpc : s.programCounter = some p)
    (hb : s.rom.get? p = some b)
    (hno : ∀ i : Instr, opcode i ≠ b) :
    (step s).2 = .nop ∧
    (step s).1.programCounter = some (p + 1) ∧
    (step s).1.registerA = s.registerA ∧
    (step s).1.registerB = s.registerB ∧
    (step s).1.flagZero = s.flagZero ∧
    (step s).1.flagCarry = s.flagCarry ∧
    (step s).1.outputRegister = s.outputRegister ∧
    (step s).1.ram = s.ram ∧
    (step s).1.rom = s.rom := by
  have hd : decode s.rom[p]? = none := by
    rw [← List.get?_eq_getElem?, hb]; exact decode_eq_none hno
  simp [step, hpc, hd]

theorem unknown_opcode_is_nop_w :
    (step { initCPU with rom := zeroMem.set 0 12 }).2 = .nop ∧
    (step { initCPU with rom := zeroMem.set 0 12 }).1.programCounter = some (0 + 1) ∧
    (step { initCPU with rom := zeroMem.set 0 12 }).1.registerA =
      ({ initCPU with rom := zeroMem.set 0 12 } : CPUState).registerA ∧
    (step { initCPU with rom := zeroMem.set 0 12 }).1.registerB =
      ({ initCPU with rom := zeroMem.set 0 12 } : CPUState).registerB ∧
    (step { initCPU with rom := zeroMem.set 0 12 }).1.flagZero =
      ({ initCPU with rom := zeroMem.set 0 12 } : CPUState).flagZero ∧
    (step { initCPU with rom := zeroMem.set 0 12 }).1.flagCarry =
      ({ initCPU with rom := zeroMem.set 0 12 } : CPUState).flagCarry ∧
    (step { initCPU with rom := zeroMem.set 0 12 }).1.outputRegister =
      ({ initCPU with rom := zeroMem.set 0 12 } : CPUState).outputRegister ∧
    (step { initCPU with rom := zeroMem.set 0 12 }).1.ram =
      ({ initCPU with rom := zeroMem.set 0 12 } : CPUState).ram ∧
    (step { initCPU with rom := zeroMem.set 0 12 }).1.rom =
      ({ initCPU with rom := zeroMem.set 0 12 } : CPUState).rom :=
  unknown_opcode_is_nop _ 0 12 rfl (by decide) (by decide)

/-- Claim C6: executing JMP, JC or JZ (fetched at address p with operand byte
addr) leaves both flags unchanged; JMP always jumps, JC jumps iff carry
is set, JZ jumps iff zero is set, and a not-taken conditional leaves the
program counter at p + 2, the next sequential instruction. -/
theorem jump_semantics (s : CPUState) (p addr : Nat)
    (hpc : s.programCounter = some p)
    (hop : s.rom.get? (p + 1) = some addr) :
    (s.rom.get? p = some 6 →
      (step s).1.flagZero = s.flagZero ∧ (step s).1.flagCarry = s.flagCarry ∧
      (step s).1.programCounter = some addr) ∧
    (s.rom.get? p = some 7 →
      (step s).1.flagZero = s.flagZero ∧ (step s).1.flagCarry = s.flagCarry ∧
      (step s).1.programCounter = if s.flagCarry then some addr else some (p + 2)) ∧
    (s.rom.get? p = some 8 →
      (step s).1.flagZero = s.flagZero ∧ (step s).1.flagCarry = s.flagCarry ∧
      (step s).1.programCounter = if s.flagZero then some addr else some (p + 2)) := by
  have hop' : s.rom[p + 1]? = some addr := by
    rw [← List.get?_eq_getElem?]; exact hop
  refine ⟨fun hf => ?_, fun hf => ?_, fun hf => ?_⟩
  · have hf' : s.rom[p]? = some 6 := by rw [← List.get?_eq_getElem?]; exact hf
    simp [step, hpc, hf', hop', decode, execute, operandCount]
  · have hf' : s.rom[p]? = some 7 := by rw [← List.get?_eq_getElem?]; exact hf
    cases hc : s.flagCarry <;>
      simp [step, hpc, hf', hop', decode, execute, operandCount, hc]
  · have hf' : s.rom[p]? = some 8 := by rw [← List.get?_eq_getElem?]; exact hf
    cases hz : s.flagZero <;>
      simp [step, hpc, hf', hop', decode, execute, operandCount, hz]

theorem jump_semantics_w :
    (({ initCPU with rom := (zeroMem.set 0 7).set 1 9 } : CPUState).rom.get? 0 = some 6 →
      (step { initCPU with rom := (zeroMem.set 0 7).set 1 9 }).1.flagZero =
        ({ initCPU with rom := (zeroMem.set 0 7).set 1 9 } : CPUState).flagZero ∧
      (step { initCPU with rom := (zeroMem.set 0 7).set 1 9 }).1.flagCarry =
        ({ initCPU with rom := (zeroMem.set 0 7).set 1 9 } : CPUState).flagCarry ∧
      (step { initCPU with rom := (zeroMem.set 0 7).set 1 9 }).1.programCounter = some 9) ∧
    (({ initCPU with rom := (zeroMem.set 0 7).set 1 9 } : CPUState).rom.get? 0 = some 7 →
      (step { initCPU with rom := (zeroMem.set 0 7).set 1 9 }).1.flagZero =
        ({ initCPU with rom := (zeroMem.set 0 7).set 1 9 } : CPUState).flagZero ∧
      (step { initCPU with rom := (zeroMem.set 0 7).set 1 9 }).1.flagCarry =
        ({ initCPU with rom := (zeroMem.set 0 7).set 1 9 } : CPUState).flagCarry ∧
      (step { initCPU with rom := (zeroMem.set 0 7).set 1 9 }).1.programCounter =
        if ({ initCPU with rom := (zeroMem.set 0 7).set 1 9 } : CPUState).flagCarry
        then some 9 else some (0 + 2)) ∧
    (({ initCPU with rom := (zeroMem.set 0 7).set 1 9 } : CPUState).rom.get? 0 = some 8 →
      (step { initCPU with rom := (zeroMem.set 0 7).set 1 9 }).1.flagZero =
        ({ initCPU with rom := (zeroMem.set 0 7).set 1 9 } : CPUState).flagZero ∧
      (step { initCPU with rom := (zeroMem.set 0 7).set 1 9 }).1.flagCarry =
        ({ initCPU with rom := (zeroMem.set 0 7).set 1 9 } : CPUState).flagCarry ∧
      (step { initCPU with rom := (zeroMem.set 0 7).set 1 9 }).1.programCounter =
        if ({ initCPU with rom := (zeroMem.set 0 7).set 1 9 } : CPUState).flagZero
        then some 9 else some (0 + 2)) :=
  jump_semantics { initCPU with rom := (zeroMem.set 0 7).set 1 9 } 0 9 rfl (by decide)

/-- Claim C9: step() is total by construction; its result is always one of the
halt, continue or silent-no-op signals; a fetch that yields no byte
(program counter at or past the instruction-memory length, or an
undefined counter) takes the silent no-op path: counter advanced by 1
(or left undefined), every register, flag and memory unchanged. -/
theorem step_total_no_fetch (s : CPUState) :
    ((step s).2 = .halt ∨ (step s).2 = .cont ∨ (step s).2 = .nop) ∧
    (∀ p : Nat, s.programCounter = some p → s.rom.get? p = none →
      (step s).2 = .nop ∧ (step s).1.programCounter = some (p + 1) ∧
      (step s).1.registerA = s.registerA ∧ (step s).1.registerB = s.registerB ∧
      (step s).1.flagZero = s.flagZero ∧ (step s).1.flagCarry = s.flagCarry ∧
      (step s).1.outputRegister = s.outputRegister ∧
      (step s).1.ram = s.ram ∧ (step s).1.rom = s.rom) ∧
    (s.programCounter = none →
      (step s).2 = .nop ∧ (step s).1.programCounter = none ∧
      (step s).1.registerA = s.registerA ∧ (step s).1.ram = s.ram) := by
  refine ⟨?_, fun p hpc hfetch => ?_, fun hpc => ?_⟩
  · rcases h : (step s).2 with _ | _ | _
    · exact Or.inl rfl
    · exact Or.inr (Or.inl rfl)
    · exact Or.inr (Or.inr rfl)
  · have hf : s.rom[p]? = (none : Option Nat) := by
      rw [← List.get?_eq_getElem?]; exact hfetch
    simp [step, hpc, hf, decode]
  · simp [step, hpc, decode]

theorem step_total_no_fetch_w :
    (step { initCPU with programCounter := some 300 }).2 = .nop ∧
    (step { initCPU with programCounter := some 300 }).1.programCounter = some (300 + 1) ∧
    (step { initCPU with programCounter := some 300 }).1.registerA =
      ({ initCPU with programCounter := some 300 } : CPUState).registerA ∧
    (step { initCPU with programCounter := some 300 }).1.registerB =
      ({ initCPU with programCounter := some 300 } : CPUState).registerB ∧
    (step { initCPU with programCounter := some 300 }).1.flagZero =
      ({ initCPU with programCounter := some 300 } : CPUState).flagZero ∧
    (step { initCPU with programCounter := some 300 }).1.flagCarry =
      ({ initCPU with programCounter := some 300 } : CPUState).flagCarry ∧
    (step { initCPU with programCounter := some 300 }).1.outputRegister =
      ({ initCPU with programCounter := some 300 } : CPUState).outputRegister ∧
    (step { initCPU with programCounter := some 300 }).1.ram =
      ({ initCPU with programCounter := some 300 } : CPUState).ram ∧
    (step { initCPU with programCounter := some 300 }).1.rom =
      ({ initCPU with programCounter := some 300 } : CPUState).rom :=
  (step_total_no_fetch { initCPU with programCounter := some 300 }).2.1 300 rfl (by decide)

/-- Claim C2 counterexample: with the program counter at 255 and a NOP fetched
there, a single step leaves the counter at 256 — the program counter is
not reduced modulo 256 and leaves the byte range. -/
theorem pc_no_wrap_cex :
    (step { initCPU with programCounter := some 255 }).1.programCounter = some 256 ∧
    ¬ (256 ≤ 255) := ⟨by decide, by decide⟩

/-- Claim C2 amended: the program counter never wraps; from a state with
programCounter p in 0-255 and a 256-entry instruction memory of byte
values, one step leaves the counter at some q with q at most 257 (it can
reach 256 or 257, beyond the byte range, when p is near the end), or
undefined when a jump at address 255 reads its operand past the end of
memory; the source relies on run()'s external bound check, not on
wrapping, to stop execution. -/
theorem pc_no_wrap_bound (s : CPUState) (p : Nat)
    (hpc : s.programCounter = some p) (hp : p ≤ 255)
    (hlen : s.rom.length = 256)
    (hbytes : ∀ b ∈ s.rom, b ≤ 255) :
    (step s).1.programCounter = none ∨
    ∃ q, (step s).1.programCounter = some q ∧ q ≤ 257 := by
  have hjump : s.rom[p + 1]? = none ∨ ∃ q, s.rom[p + 1]? = some q ∧ q ≤ 255 := by
    rcases hh : s.rom[p + 1]? with _ | q
    · exact Or.inl rfl
    · refine Or.inr ⟨q, rfl, ?_⟩
      rw [← List.get?_eq_getElem?] at hh
      exact hbytes q (List.get?_mem hh)
  rcases hd : decode s.rom[p]? with _ | i
  · exact Or.inr ⟨p + 1, by simp [step, hpc, hd], by omega⟩
  cases i
  case NOP =>
    exact Or.inr ⟨p + 1, by simp [step, hpc, hd, execute, operandCount], by omega⟩
  case LDA =>
    exact Or.inr ⟨p + 2, by simp [step, hpc, hd, execute, operandCount], by omega⟩
  case ADD =>
    exact Or.inr ⟨p + 2, by simp [step, hpc, hd, execute, operandCount], by omega⟩
  case SUB =>
    exact Or.inr ⟨p + 2, by simp [step, hpc, hd, execute, operandCount], by omega⟩
  case STA =>
    rcases hh : s.rom[p + 1]? with _ | q
    · exact Or.inr ⟨p + 2, by simp [step, hpc, hd, execute, operandCount, hh], by omega⟩
    · exact Or.inr ⟨p + 2, by simp [step, hpc, hd, execute, operandCount, hh], by omega⟩
  case LDI =>
    exact Or.inr ⟨p + 2, by simp [step, hpc, hd, execute, operandCount], by omega⟩
  case JMP =>
    rcases hjump with hh | ⟨q, hh, hq⟩
    · exact Or.inl (by simp [step, hpc, hd, execute, operandCount, hh])
    · exact Or.inr ⟨q, by simp [step, hpc, hd, execute, operandCount, hh], by omega⟩
  case JC =>
    cases hc : s.flagCarry
    · exact Or.inr ⟨p + 2, by simp [step, hpc, hd, execute, operandCount, hc], by omega⟩
    · rcases hjump with hh | ⟨q, hh, hq⟩
      · exact Or.inl (by simp [step, hpc, hd, execute, operandCount, hc, hh])
      · exact Or.inr ⟨q, by simp [step, hpc, hd, execute, operandCount, hc, hh], by omega⟩
  case JZ =>
    cases hz : s.flagZero
    · exact Or.inr ⟨p + 2, by simp [step, hpc, hd, execute, operandCount, hz], by omega⟩
    · rcases hjump with hh | ⟨q, hh, hq⟩
      · exact Or.inl (by simp [step, hpc, hd, execute, operandCount, hz, hh])
      · exact Or.inr ⟨q, by simp [step, hpc, hd, execute, operandCount, hz, hh], by omega⟩
  case OUT =>
    exact Or.inr ⟨p + 1, by simp [step, hpc, hd, execute, operandCount], by omega⟩
  case HLT =>
    exact Or.inr ⟨p + 1, by simp [step, hpc, hd, execute, operandCount], by omega⟩

/-- Claim C7: the address-to-source-line map survives reset() (which never
writes it) and loadProgram() (which saves and restores it around its
internal reset); only assembleCode replaces it, wholesale, with the map
computed from the new source text alone. -/
theorem line_map_preserved (s : CPUState) (program : List Nat) (code : String) :
    (reset s).pcToLineMap = s.pcToLineMap ∧
    (loadProgram program s).pcToLineMap = s.pcToLineMap ∧
    (assembleInto code s).1.pcToLineMap = (assembleCode code).2 :=
  ⟨rfl, rfl, rfl⟩

/-- Claim C1: evaluation of the assembler at the failing input: in the one-line
program LDA FOO the operand token FOO is neither an integer nor a known
label, yet assembleCode emits the coerced operand byte 0 (JS:
parseInt of FOO is NaN and NaN masked by 0xFF is 0) and returns
machine code [1, 0] normally, with no error value in its result — there
is no structured failure identifying the line and the token. -/
theorem unresolved_operand_coerced :
    assembleCode "LDA FOO" = ([1, 0], [(0, 0)]) ∧
    resolveOperand [] "FOO".toList = 0 :=
  ⟨by decide, by decide⟩

def addDemoProgram : String :=
  "LDI 6\nSTA 20\nLDI 7\nSTA 21\nLDA 20\nADD 21\nSTA 22\nOUT\nHLT"

/-- Claim C8: assembling the nine-line add-two-numbers demo, loading it, and
stepping until step() reports halt reaches the halt signal and leaves
dataMemory[22] = 13 and outputRegister = 13. -/
theorem add_program_runs :
    (runUntilHalt 20 (loadProgram (assembleCode addDemoProgram).1 initCPU)).isSome = true ∧
    ((runUntilHalt 20 (loadProgram (assembleCode addDemoProgram).1 initCPU)).getD
      initCPU).ram.get? 22 = some 13 ∧
    ((runUntilHalt 20 (loadProgram (assembleCode addDemoProgram).1 initCPU)).getD
      initCPU).outputRegister = some 13 :=
  ⟨by decide, by decide, by decide⟩

/-- Claim C10: a line whose instruction part is a single token naming an
operand-taking instruction (operand count 1, no operand token) makes
pass 2 emit exactly one byte, the opcode, while pass 1 advances its
running address by 2 for the same line; consequently a label defined
after such a line is bound to an address one greater than the actual
position of its code, as the concrete program JMP L / ADD / L: OUT
shows: the assembled code is [6, 4, 2, 9], whose JMP operand byte (index
1) is the label address 4 although the OUT opcode the label names sits
at index 3. -/
theorem missing_operand_off_by_one :
    (∀ (labels : List (List Char × Nat)) (acc : List Nat) (line w : List Char) (op : Nat),
      tokens (instrPart (jsTrim line)) = [w] →
      instrLookup (toUpperL w) = some (op, 1) →
      pass2Line labels acc line = acc ++ [op]) ∧
    (∀ (st : AsmPass1) (idx : Nat) (line w : List Char) (op : Nat),
      tokens (instrPart (jsTrim line)) = [w] →
      instrLookup (toUpperL w) = some (op, 1) →
      (pass1Line st idx line).currentAddress = st.currentAddress + 2) ∧
    (assembleCode "JMP L\nADD\nL: OUT").1 = [6, 4, 2, 9] ∧
    (assembleCode "JMP L\nADD\nL: OUT").1.get? 1 = some 4 ∧
    (assembleCode "JMP L\nADD\nL: OUT").1.get? 3 = some 9 := by
  refine ⟨?_, ?_, by decide, by decide, by decide⟩
  · intro labels acc line w op htok hlook
    have hil : instrPart (jsTrim line) ≠ [] := by
      intro h
      rw [h] at htok
      simp [tokens, splitWhen] at htok
    simp [pass2Line, htok, hlook, hil]
  · intro st idx line w op htok hlook
    by_cases hc : ':' ∈ jsTrim line
    · have hcBool : (jsTrim line).contains ':' = true := by simpa using hc
      have htok' : tokens (jsTrim (((jsTrim line).splitOn ':').getD 1 [])) = [w] := by
        simpa [instrPart, hc] using htok
      have hne : jsTrim (((jsTrim line).splitOn ':').getD 1 []) ≠ [] := by
        intro h
        rw [h] at htok'
        simp [tokens, splitWhen] at htok'
      simp only [pass1Line]
      rw [if_pos hcBool, if_pos hne, htok']
      simp only [List.headD]
      rw [hlook]
      show st.currentAddress + 1 + 1 = st.currentAddress + 2
      omega
    · have hcneg : ¬ ((jsTrim line).contains ':' = true) := by simpa using hc
      have htok' : tokens (jsTrim line) = [w] := by
        simpa [instrPart, hc] using htok
      simp only [pass1Line]
      rw [if_neg hcneg, htok']
      simp only [List.headD]
      rw [hlook]
      show st.currentAddress + 1 + 1 = st.currentAddress + 2
      omega

theorem missing_operand_off_by_one_w :
    pass2Line [] [] "ADD".toList = [] ++ [2] ∧
    (pass1Line { labels := [], currentAddress := 0, pcToLineMap := [] }
      0 "ADD".toList).currentAddress = 0 + 2 :=
  ⟨missing_operand_off_by_one.1 [] [] "ADD".toList "ADD".toList 2 (by decide) (by decide),
   missing_operand_off_by_one.2.1 { labels := [], currentAddress := 0, pcToLineMap := [] }
     0 "ADD".toList "ADD".toList 2 (by decide) (by decide)⟩

set_option maxRecDepth 4096 in
theorem pc_no_wrap_bound_w :
    (step initCPU).1.programCounter = none ∨
    ∃ q, (step initCPU).1.programCounter = some q ∧ q ≤ 257 :=
  pc_no_wrap_bound initCPU 0 rfl (by decide)
    (show zeroMem.length = 256 by simp [zeroMem])
    (fun b hb => by
      have hb0 : b = 0 := List.eq_of_mem_replicate hb
      omega)
